import Mathlib

/-!
Formal model of the buffer-ownership layer of an io-uring based
asynchronous I/O runtime (tokio-uring fork).

The development shallowly embeds the buffer result carriers
(src/buf/result.rs), the positional file operations and their
read-exact / write-all loops (src/fs/file.rs), the thread-safe fixed
buffer handle (src/buf/fixed/sync/handle.rs), and the read completion
handler (src/io/read.rs).  Kernel completions are modelled as an
oracle function from the iteration index to the completion result, so
theorems quantify over every possible sequence of kernel outcomes.
-/

/-- Error kinds of std::io::ErrorKind used by this crate
(spec section 7: Os, InvalidInput, UnexpectedEof, WriteZero, ...). -/
inductive ErrorKind where
  | os (errno : Int)
  | invalidInput
  | unexpectedEof
  | writeZero
  | queueFull
  | other
deriving DecidableEq, Repr

/-- Model of std::io::Error as constructed by io::Error::new(kind, msg). -/
structure IoError where
  kind : ErrorKind
  msg : String
deriving DecidableEq, Repr

/-- io::Error::new(io::ErrorKind::UnexpectedEof, "failed to fill whole buffer")
from File::read_exact_slice_at (src/fs/file.rs). -/
def eofErr : IoError := ⟨ErrorKind.unexpectedEof, "failed to fill whole buffer"⟩

/-- io::Error::new(io::ErrorKind::WriteZero, "failed to write whole buffer")
from File::write_all_slice_at (src/fs/file.rs). -/
def writeZeroErr : IoError := ⟨ErrorKind.writeZero, "failed to write whole buffer"⟩

/-- io::Error::new(io::ErrorKind::InvalidInput, "buffer too large for file")
from the overflow guards in src/fs/file.rs. -/
def invalidInputErr : IoError := ⟨ErrorKind.invalidInput, "buffer too large for file"⟩

/-- struct BufError<B>(pub io::Error, pub B) from src/buf/result.rs:
the error type carrying the buffer alongside the error code. -/
structure BufError (B : Type) where
  err : IoError
  buf : B
deriving DecidableEq, Repr

/-- pub type BufResult<T, B> = Result<(T, B), BufError<B>> from
src/buf/result.rs. -/
def BufResult (T B : Type) : Type := Except (BufError B) (T × B)

/-- ResultExt::lift_buf from src/buf/result.rs: splits a BufResult into
the pair (io::Result<T>, B). -/
def lift_buf {T B : Type} : BufResult T B → Except IoError T × B
  | Except.ok (out, buf) => (Except.ok out, buf)
  | Except.error e => (Except.error e.err, e.buf)

/-- ResultExt::map_buf from src/buf/result.rs: transforms the returned
buffer in both arms, leaving the output value or the error unchanged. -/
def map_buf {T B C : Type} (f : B → C) : BufResult T B → BufResult T C
  | Except.ok (out, buf) => Except.ok (out, f buf)
  | Except.error e => Except.error ⟨e.err, f e.buf⟩

/-- Modelled from the spec (section 3, Buffer): a user buffer as seen by
the IoBuf and IoBufMut traits, whose sources (src/buf/io_buf.rs and kin)
are not under src/.  Only the two observable lengths matter to the file
operation loops: the total capacity and the initialized length. -/
structure IoBuffer where
  init : Nat
  cap : Nat
deriving DecidableEq, Repr

/-- Modelled from the spec (section 4.6): IoBufMut::set_init for an owned
byte buffer advances the initialized length and never rewinds it; the
source of the Vec impl is not under src/.  The in-src implementation for
FixedBuf (src/buf/fixed/sync/handle.rs) has the same semantics. -/
def IoBuffer.set_init (b : IoBuffer) (n : Nat) : IoBuffer :=
  if b.init < n then { b with init := n } else b

/-- Modelled from the spec (section 3, Buffer): a sliced view with begin
and end byte offsets into an underlying buffer.  The Slice type of the
buf module is not under src/; lo is the begin offset and hi the end
offset. -/
structure Slice where
  buf : IoBuffer
  lo : Nat
  hi : Nat
deriving DecidableEq, Repr

/-- Modelled from the spec: total capacity of the sliced view, the
number of bytes between the begin and end offsets. -/
def Slice.bytes_total (s : Slice) : Nat := s.hi - s.lo

/-- Modelled from the spec: initialized-length semantics transfer to the
slice; the initialized bytes of the view are those of the underlying
buffer that fall inside the window. -/
def Slice.bytes_init (s : Slice) : Nat := min s.buf.init s.hi - s.lo

/-- Modelled from the spec: Slice::into_inner unwraps the view and
returns the underlying buffer. -/
def Slice.into_inner (s : Slice) : IoBuffer := s.buf

/-- Modelled from the spec: re-slicing a view with a tail range (n..)
advances the begin offset, keeping the end offset and the underlying
buffer. -/
def Slice.sliceFrom (s : Slice) (n : Nat) : Slice :=
  { s with lo := s.lo + n }

/-- Modelled from the spec: slice(..) over the full range of the view
keeps the bounds unchanged. -/
def Slice.sliceFull (s : Slice) : Slice := s

/-- Modelled from the spec: set_init on a slice asserts bytes initialized
relative to the begin offset, so it delegates to the underlying buffer at
offset lo + n. -/
def Slice.set_init (s : Slice) (n : Nat) : Slice :=
  { s with buf := s.buf.set_init (s.lo + n) }

/-- Modelled from the spec (section 4.6): the bounds of a bounded buffer
are its begin and end offsets. -/
def Slice.bounds (s : Slice) : Nat × Nat := (s.lo, s.hi)

/-- Modelled from the spec (section 4.6): from_buf_bounds reconstructs
the bounded buffer from an underlying buffer and recorded bounds. -/
def Slice.from_buf_bounds (b : IoBuffer) (bounds : Nat × Nat) : Slice :=
  ⟨b, bounds.1, bounds.2⟩

/-- Completion oracle: the result the kernel delivers for the i-th
submitted operation of a loop, already mapped through the CQE decoding
(negative codes to OS errors, non-negative codes to byte counts). -/
def KernelOracle : Type := Nat → Except IoError Nat

/-- 2^64, the number of values of u64; pos.checked_add(len) in
src/fs/file.rs returns None exactly when the sum reaches it. -/
def u64Size : Nat := 2 ^ 64

/-- u64::checked_add applied to offset and length, as used by the
overflow guards in src/fs/file.rs. -/
def checkedAddU64 (a b : Nat) : Option Nat :=
  if a + b < u64Size then some (a + b) else none

/-- Modelled from the spec and src/io/read.rs: CqeResult::buf_result_with
(the driver op module is not under src/) applies the success continuation
to the completion value and the stored buffer, and on error returns the
error alongside the unchanged buffer. -/
def bufResultWith {B T : Type} (res : Except IoError Nat) (buf : B)
    (f : Nat → B → T × B) : Except IoError T × B :=
  match res with
  | Except.ok v => let p := f v buf; (Except.ok p.1, p.2)
  | Except.error e => (Except.error e, buf)

/-- The completion handler of the Read operation (src/io/read.rs):
on success with kernel result n it calls set_init(n) on the owned buffer
and yields (n, buffer); on error the buffer is returned unchanged. -/
def readComplete {B : Type} (setInitFn : B → Nat → B) (buf : B)
    (res : Except IoError Nat) : Except IoError Nat × B :=
  bufResultWith res buf (fun v b => (v, setInitFn b v))

/-- The loop of File::read_exact_slice_at (src/fs/file.rs): while the
slice has remaining capacity, await read_at (whose completion applies
set_init per src/io/read.rs); Ok(0) terminates with UnexpectedEof,
Ok(n) advances the window and the offset, and an error is returned with
the buffer.  The oracle index i numbers the iterations. -/
def readExactLoop (k : KernelOracle) (i : Nat) (s : Slice) (pos : Nat) :
    Except IoError Unit × IoBuffer :=
  if _h : s.bytes_total = 0 then (Except.ok (), s.into_inner)
  else
    match k i with
    | Except.error e => (Except.error e, s.into_inner)
    | Except.ok 0 => (Except.error eofErr, (s.set_init 0).into_inner)
    | Except.ok (n + 1) =>
        readExactLoop k (i + 1) ((s.set_init (n + 1)).sliceFrom (n + 1))
          (pos + (n + 1))
termination_by s.bytes_total
decreasing_by
  simp [Slice.bytes_total, Slice.sliceFrom, Slice.set_init] at *
  omega

/-- File::read_exact_slice_at (src/fs/file.rs): the u64 overflow guard on
pos + bytes_total, returning InvalidInput with the buffer before any
submission, followed by the read loop. -/
def readExactSliceAt (k : KernelOracle) (s : Slice) (pos : Nat) :
    Except IoError Unit × IoBuffer :=
  match checkedAddU64 pos s.bytes_total with
  | none => (Except.error invalidInputErr, s.into_inner)
  | some _ => readExactLoop k 0 s pos

/-- File::read_exact_at (src/fs/file.rs): records the original bounds,
runs the slice loop on the full-range slice, and reconstructs the caller
buffer with from_buf_bounds. -/
def readExactAt (k : KernelOracle) (t : Slice) (pos : Nat) :
    Except IoError Unit × Slice :=
  let origBounds := t.bounds
  let r := readExactSliceAt k t.sliceFull pos
  (r.1, Slice.from_buf_bounds r.2 origBounds)

/-- The loop of File::write_all_slice_at (src/fs/file.rs): while the
slice has initialized bytes, await write_at (which leaves the buffer
unchanged); Ok(0) terminates with WriteZero, Ok(n) advances the window
and the offset, and an error is returned with the buffer. -/
def writeAllLoop (k : KernelOracle) (i : Nat) (s : Slice) (pos : Nat) :
    Except IoError Unit × IoBuffer :=
  if _h : s.bytes_init = 0 then (Except.ok (), s.into_inner)
  else
    match k i with
    | Except.error e => (Except.error e, s.into_inner)
    | Except.ok 0 => (Except.error writeZeroErr, s.into_inner)
    | Except.ok (n + 1) =>
        writeAllLoop k (i + 1) (s.sliceFrom (n + 1)) (pos + (n + 1))
termination_by s.bytes_init
decreasing_by
  simp [Slice.bytes_init, Slice.sliceFrom] at *
  omega

/-- File::write_all_slice_at (src/fs/file.rs): the u64 overflow guard on
pos + bytes_init, returning InvalidInput with the buffer before any
submission, followed by the write loop. -/
def writeAllSliceAt (k : KernelOracle) (s : Slice) (pos : Nat) :
    Except IoError Unit × IoBuffer :=
  match checkedAddU64 pos s.bytes_init with
  | none => (Except.error invalidInputErr, s.into_inner)
  | some _ => writeAllLoop k 0 s pos

/-- File::write_all_at (src/fs/file.rs): records the original bounds,
runs the slice loop on the full-range slice, and reconstructs the caller
buffer with from_buf_bounds. -/
def writeAllAt (k : KernelOracle) (t : Slice) (pos : Nat) :
    Except IoError Unit × Slice :=
  let origBounds := t.bounds
  let r := writeAllSliceAt k t.sliceFull pos
  (r.1, Slice.from_buf_bounds r.2 origBounds)

/-- Model of Vec<u8> as held by the fixed buffer handle
(src/buf/fixed/sync/handle.rs): mem is the allocation, one entry per
byte of capacity, and len the number of initialized bytes. -/
structure VecU8 where
  mem : List Nat
  len : Nat
deriving DecidableEq, Repr

/-- Vec::capacity: the allocation size. -/
def VecU8.capacity (v : VecU8) : Nat := v.mem.length

/-- Vec::set_len: records a new initialized length without touching the
allocation. -/
def VecU8.set_len (v : VecU8) (n : Nat) : VecU8 := { v with len := n }

/-- The thread-safe fixed buffer handle (src/buf/fixed/sync/handle.rs):
a checked-out buffer built from the registered iovec, holding the
buffer data and the registry index.  The Arc<Mutex<dyn FixedBuffers>>
collection reference is modelled separately as an argument of the drop
semantics. -/
structure FixedBuf where
  buf : VecU8
  index : Nat
deriving DecidableEq, Repr

/-- IoBuf::bytes_init for FixedBuf: self.buf.len()
(src/buf/fixed/sync/handle.rs). -/
def FixedBuf.bytes_init (fb : FixedBuf) : Nat := fb.buf.len

/-- IoBuf::bytes_total for FixedBuf: self.buf.capacity()
(src/buf/fixed/sync/handle.rs). -/
def FixedBuf.bytes_total (fb : FixedBuf) : Nat := fb.buf.capacity

/-- IoBufMut::set_init for FixedBuf (src/buf/fixed/sync/handle.rs):
if self.buf.len() < pos then self.buf.set_len(pos), else no change. -/
def FixedBuf.set_init (fb : FixedBuf) (pos : Nat) : FixedBuf :=
  if fb.buf.len < pos then { fb with buf := fb.buf.set_len pos } else fb

/-- Deref for FixedBuf (src/buf/fixed/sync/handle.rs): the handle
dereferences to the byte slice of the Vec, that is the initialized
prefix of the allocation. -/
def FixedBuf.deref (fb : FixedBuf) : List Nat := fb.buf.mem.take fb.buf.len

/-- DerefMut for FixedBuf (src/buf/fixed/sync/handle.rs): the same view
as Deref. -/
def FixedBuf.derefMut (fb : FixedBuf) : List Nat := fb.deref

/-- Modelled from the spec (section 3, Fixed Buffer Entry): an entry of a
fixed buffer collection with capacity, initialized length and free or
checked-out state.  The registry and pool sources are not under src/. -/
structure FBEntry where
  cap : Nat
  initLen : Nat
  free : Bool
deriving DecidableEq, Repr

/-- Modelled from the spec: FixedBuffers::check_in marks the entry at the
given index free, recording the initialized length reported by the
handle (registry and pool sources are not under src/). -/
def checkInFB : List FBEntry → Nat → Nat → List FBEntry
  | [], _, _ => []
  | e :: es, 0, len => { e with initLen := len, free := true } :: es
  | e :: es, n + 1, len => e :: checkInFB es n len

/-- Outcome of running the Drop impl of the FixedBuf handle: the updated
collection after a check-in, or no collection change. -/
structure DropOutcome where
  collection : List FBEntry
  panicked : Bool
  checkedIn : Bool
deriving DecidableEq, Repr

/-- Drop for FixedBuf (src/buf/fixed/sync/handle.rs): lock the shared
collection; on a poisoned lock, return without checking in when the
thread is already panicking and panic otherwise; on a healthy lock,
check the buffer in with its current initialized length self.buf.len().
The lock state and thread::panicking() are inputs from the
environment. -/
def FixedBuf.dropHandle (fb : FixedBuf) (c : List FBEntry)
    (lockPoisoned panicking : Bool) : DropOutcome :=
  if lockPoisoned then
    if panicking then ⟨c, false, false⟩
    else ⟨c, true, false⟩
  else ⟨checkInFB c fb.index fb.buf.len, false, true⟩

/-- Modelled from the spec (section 4.4): SharedFd::close (driver sources
not under src/) awaits the close submission and yields the completion
result delivered by the kernel for the close operation. -/
def SharedFd.closeAwait (cqe : Except IoError Unit) : Except IoError Unit :=
  cqe

/-- File::close (src/fs/file.rs): awaits self.fd.close() — discarding its
value with a statement — and then returns Ok(()).  The function takes the
close completion as input, so it resolves only once the close completion
has been delivered. -/
def fileClose (cqe : Except IoError Unit) : Except IoError Unit :=
  let _ := SharedFd.closeAwait cqe
  Except.ok ()

/-- Helper: one step of the read-exact loop at a state with remaining
capacity, when the kernel reports zero bytes read, terminates with the
UnexpectedEof error and the inner buffer of the slice returned by
read_at. -/
theorem readExactLoop_ok0 (k : KernelOracle) (i : Nat) (s : Slice) (pos : Nat)
    (hk : k i = Except.ok 0) (h : s.bytes_total ≠ 0) :
    readExactLoop k i s pos = (Except.error eofErr, (s.set_init 0).into_inner) := by
  rw [readExactLoop]
  simp [h, hk]

/-- Helper: one step of the write-all loop at a state with initialized
bytes remaining, when the kernel reports zero bytes written, terminates
with the WriteZero error and the inner buffer. -/
theorem writeAllLoop_ok0 (k : KernelOracle) (i : Nat) (s : Slice) (pos : Nat)
    (hk : k i = Except.ok 0) (h : s.bytes_init ≠ 0) :
    writeAllLoop k i s pos = (Except.error writeZeroErr, s.into_inner) := by
  rw [writeAllLoop]
  simp [h, hk]

/-- Helper: the write-all loop returns the underlying buffer of its
slice in every outcome. -/
theorem writeAllLoop_buf (k : KernelOracle) (i : Nat) (s : Slice) (pos : Nat) :
    (writeAllLoop k i s pos).2 = s.buf := by
  induction i, s, pos using writeAllLoop.induct k with
  | _ => rw [writeAllLoop]; simp_all [Slice.into_inner, Slice.sliceFrom]

/-- Helper: the read-exact loop returns the underlying buffer of its
slice in every outcome: the capacity is unchanged and the initialized
length only advances (via set_init in the read completion). -/
theorem readExactLoop_capInit (k : KernelOracle) (i : Nat) (s : Slice) (pos : Nat) :
    (readExactLoop k i s pos).2.cap = s.buf.cap ∧
      s.buf.init ≤ (readExactLoop k i s pos).2.init := by
  induction i, s, pos using readExactLoop.induct k with
  | _ =>
    rw [readExactLoop]
    simp_all [Slice.into_inner, Slice.sliceFrom, Slice.set_init, IoBuffer.set_init]
    try (split <;> simp_all <;> omega)

/-- Helper: write_all_slice_at returns the underlying buffer in every
outcome, including the InvalidInput early return. -/
theorem writeAllSliceAt_buf (k : KernelOracle) (s : Slice) (pos : Nat) :
    (writeAllSliceAt k s pos).2 = s.buf := by
  unfold writeAllSliceAt
  cases h : checkedAddU64 pos s.bytes_init with
  | none => simp [Slice.into_inner]
  | some v => simpa using writeAllLoop_buf k 0 s pos

/-- Helper: read_exact_slice_at returns the underlying buffer in every
outcome: capacity unchanged, initialized length only advanced. -/
theorem readExactSliceAt_capInit (k : KernelOracle) (s : Slice) (pos : Nat) :
    (readExactSliceAt k s pos).2.cap = s.buf.cap ∧
      s.buf.init ≤ (readExactSliceAt k s pos).2.init := by
  unfold readExactSliceAt
  cases h : checkedAddU64 pos s.bytes_total with
  | none => simp [Slice.into_inner]
  | some v => simpa using readExactLoop_capInit k 0 s pos

/-- Helper: set_init 0 on a slice whose begin offset lies inside the
initialized region of the underlying buffer leaves the buffer
unchanged. -/
theorem slice_set_init_zero_of_le (s : Slice) (hlo : s.lo ≤ s.buf.init) :
    (s.set_init 0).into_inner = s.buf := by
  simp [Slice.set_init, Slice.into_inner, IoBuffer.set_init]
  omega

/-- C9: for every value of type BufResult, lift_buf maps Ok((t, b)) to
(Ok(t), b) and Err(BufError(e, b)) to (Err(e), b); map_buf applies f to
the buffer component in both arms while leaving the success value or the
error unchanged. -/
theorem lift_buf_map_buf_behavior :
    ∀ (T B C : Type) (t : T) (b : B) (e : IoError) (f : B → C),
      lift_buf (Except.ok (t, b) : BufResult T B) = (Except.ok t, b) ∧
      lift_buf (Except.error ⟨e, b⟩ : BufResult T B) = (Except.error e, b) ∧
      map_buf f (Except.ok (t, b) : BufResult T B) = Except.ok (t, f b) ∧
      map_buf f (Except.error ⟨e, b⟩ : BufResult T B) = Except.error ⟨e, f b⟩ := by
  intro T B C t b e f
  refine ⟨rfl, rfl, rfl, rfl⟩

/-- C1 (amended): every buffer-owning file operation returns the same
buffer value to the caller in both the success arm and the error arm,
as the second component of a pair (io::Result, buffer): the read_at
completion returns the buffer unchanged on error and with only the
initialized cursor advanced on success, and the read-exact and
write-all loops hand the threaded buffer back in every outcome
(capacity always preserved; the write path returns it verbatim, the
read path advances only the initialized length). -/
theorem buffer_returned_in_both_arms :
    ∀ (fb : FixedBuf) (e : IoError) (v : Nat) (k : KernelOracle) (s : Slice)
      (pos : Nat),
      readComplete FixedBuf.set_init fb (Except.error e) = (Except.error e, fb) ∧
      readComplete FixedBuf.set_init fb (Except.ok v) = (Except.ok v, fb.set_init v) ∧
      (writeAllSliceAt k s pos).2 = s.buf ∧
      (readExactSliceAt k s pos).2.cap = s.buf.cap ∧
      s.buf.init ≤ (readExactSliceAt k s pos).2.init := by
  intro fb e v k s pos
  refine ⟨rfl, rfl, writeAllSliceAt_buf k s pos, (readExactSliceAt_capInit k s pos).1,
    (readExactSliceAt_capInit k s pos).2⟩

/-- C1 counterexample: the file operations do not resolve to the
Result<(T, B), Error<B>> carrier of src/buf/result.rs.  At a concrete
erroring input, read_exact_slice_at resolves to a pair whose first
component is a bare io::Error with the buffer beside it as the second
component — the value is the lift_buf image of the claimed carrier, not
a value of that carrier. -/
theorem read_exact_resolves_to_pair :
    readExactSliceAt (fun _ => Except.ok 0) ⟨⟨0, 3⟩, 0, 3⟩ 0 =
      (Except.error eofErr, (⟨0, 3⟩ : IoBuffer)) ∧
    (Except.error eofErr, (⟨0, 3⟩ : IoBuffer)) =
      lift_buf (Except.error ⟨eofErr, ⟨0, 3⟩⟩ : BufResult Unit IoBuffer) := by
  constructor
  · have h := readExactLoop_ok0 (fun _ => Except.ok 0) 0 ⟨⟨0, 3⟩, 0, 3⟩ 0 rfl
      (by decide)
    rw [readExactSliceAt]
    have hc : checkedAddU64 0 (Slice.bytes_total ⟨⟨0, 3⟩, 0, 3⟩) = some 3 := by
      simp [checkedAddU64, u64Size, Slice.bytes_total]
    rw [hc]
    rw [h]
    simp [Slice.set_init, Slice.into_inner, IoBuffer.set_init]
  · rfl

/-- C2: whenever the read-exact loop is at a state with at least one
unfilled byte remaining and the underlying read_at returns Ok(0), the
loop terminates with an error of kind UnexpectedEof and returns the
original buffer; symmetrically, whenever the write-all loop has
unwritten initialized bytes remaining and write_at returns Ok(0), it
terminates with an error of kind WriteZero and returns the buffer. -/
theorem read_exact_eof_write_all_write_zero (k : KernelOracle) (i : Nat)
    (s : Slice) (pos : Nat) (hk : k i = Except.ok 0)
    (hlo : s.lo ≤ s.buf.init) :
    (s.bytes_total ≠ 0 →
        readExactLoop k i s pos = (Except.error eofErr, s.buf)) ∧
    (s.bytes_init ≠ 0 →
        writeAllLoop k i s pos = (Except.error writeZeroErr, s.buf)) := by
  constructor
  · intro h
    rw [readExactLoop_ok0 k i s pos hk h, slice_set_init_zero_of_le s hlo]
  · intro h
    rw [writeAllLoop_ok0 k i s pos hk h]
    rfl

/-- C2 witness: a concrete slice of capacity 4 with 2 initialized bytes
and a kernel that always reports zero progress. -/
theorem read_exact_eof_write_all_write_zero_witness :
    readExactLoop (fun _ => Except.ok 0) 0 ⟨⟨2, 4⟩, 0, 4⟩ 7 =
      (Except.error eofErr, ⟨2, 4⟩) ∧
    writeAllLoop (fun _ => Except.ok 0) 0 ⟨⟨2, 4⟩, 0, 4⟩ 7 =
      (Except.error writeZeroErr, ⟨2, 4⟩) := by
  have h := read_exact_eof_write_all_write_zero (fun _ => Except.ok 0) 0
    ⟨⟨2, 4⟩, 0, 4⟩ 7 rfl (by decide)
  exact ⟨h.1 (by decide), h.2 (by decide)⟩

/-- C3: if pos + bytes_total (for read_exact_at) or pos + bytes_init
(for write_all_at) overflows u64, the call returns an error of kind
InvalidInput together with the (unchanged) buffer; the result holds for
every completion oracle, so no operation outcome from the ring is
consulted. -/
theorem overflow_invalid_input_before_submit (k : KernelOracle) (t : Slice)
    (pos : Nat) :
    (u64Size ≤ pos + t.bytes_total →
        readExactAt k t pos = (Except.error invalidInputErr, t)) ∧
    (u64Size ≤ pos + t.bytes_init →
        writeAllAt k t pos = (Except.error invalidInputErr, t)) := by
  constructor
  · intro h
    have hc : checkedAddU64 pos t.bytes_total = none := by
      simp [checkedAddU64]; omega
    simp [readExactAt, readExactSliceAt, Slice.sliceFull, hc, Slice.into_inner,
      Slice.from_buf_bounds, Slice.bounds]
  · intro h
    have hc : checkedAddU64 pos t.bytes_init = none := by
      simp [checkedAddU64]; omega
    simp [writeAllAt, writeAllSliceAt, Slice.sliceFull, hc, Slice.into_inner,
      Slice.from_buf_bounds, Slice.bounds]

/-- C3 witness: offset u64::MAX with a 5-byte slice overflows in both
operations. -/
theorem overflow_invalid_input_before_submit_witness :
    u64Size ≤ (2 ^ 64 - 1) + (Slice.bytes_total ⟨⟨3, 5⟩, 0, 5⟩) ∧
    readExactAt (fun _ => Except.ok 1) ⟨⟨3, 5⟩, 0, 5⟩ (2 ^ 64 - 1) =
      (Except.error invalidInputErr, ⟨⟨3, 5⟩, 0, 5⟩) ∧
    writeAllAt (fun _ => Except.ok 1) ⟨⟨3, 5⟩, 0, 5⟩ (2 ^ 64 - 1) =
      (Except.error invalidInputErr, ⟨⟨3, 5⟩, 0, 5⟩) := by
  have h := overflow_invalid_input_before_submit (fun _ => Except.ok 1)
    ⟨⟨3, 5⟩, 0, 5⟩ (2 ^ 64 - 1)
  refine ⟨by decide, h.1 (by decide), h.2 (by decide)⟩

/-- C4: read_exact_at and write_all_at record the original bounds and
in every outcome return the buffer reconstructed by from_buf_bounds, so
the caller recovers an object with the original bounds; the write path
returns the very same bounded buffer and the read path preserves the
capacity of the underlying buffer. -/
theorem bounds_reconstructed_both_ops (k : KernelOracle) (t : Slice) (pos : Nat) :
    (readExactAt k t pos).2.bounds = t.bounds ∧
    (readExactAt k t pos).2.buf.cap = t.buf.cap ∧
    (writeAllAt k t pos).2.bounds = t.bounds ∧
    (writeAllAt k t pos).2 = t := by
  refine ⟨rfl, ?_, rfl, ?_⟩
  · simpa [readExactAt, Slice.from_buf_bounds, Slice.sliceFull]
      using (readExactSliceAt_capInit k t pos).1
  · have hb := writeAllSliceAt_buf k t.sliceFull pos
    simp [writeAllAt, Slice.from_buf_bounds, Slice.bounds, Slice.sliceFull] at hb ⊢
    rw [hb]

/-- C5 (amended): File::close() awaits the asynchronous close
completion before resolving — the resolution is a function of the
delivered completion — and then always returns Ok(()), regardless of
the result the close operation reported. -/
theorem close_awaits_and_returns_ok :
    ∀ cqe : Except IoError Unit, fileClose cqe = Except.ok () := by
  intro cqe
  rfl

/-- C5 counterexample: when the close completion reports an error,
File::close() still resolves to Ok(()), so the error is not observable
in the io::Result that close() returns. -/
theorem close_error_not_observable :
    fileClose (Except.error ⟨ErrorKind.os 9, "Bad file descriptor"⟩) =
      Except.ok () ∧
    fileClose (Except.error ⟨ErrorKind.os 9, "Bad file descriptor"⟩) ≠
      Except.error ⟨ErrorKind.os 9, "Bad file descriptor"⟩ := by
  refine ⟨rfl, ?_⟩
  simp [fileClose]

/-- C6: dropping a FixedBuf handle acquires the collection lock and
checks the buffer back in with its current initialized length; if the
lock is poisoned and the thread is already panicking, the drop performs
no check-in and the collection is left unchanged (the buffer remains
checked out); if the lock is poisoned and the thread is not panicking,
the drop panics. -/
theorem fixed_buf_drop_poison_semantics :
    ∀ (fb : FixedBuf) (c : List FBEntry),
      fb.dropHandle c false false =
        ⟨checkInFB c fb.index fb.bytes_init, false, true⟩ ∧
      fb.dropHandle c false true =
        ⟨checkInFB c fb.index fb.bytes_init, false, true⟩ ∧
      fb.dropHandle c true true = ⟨c, false, false⟩ ∧
      fb.dropHandle c true false = ⟨c, true, false⟩ := by
  intro fb c
  refine ⟨rfl, rfl, rfl, rfl⟩

/-- C7: for a FixedBuf whose Vec satisfies len ≤ capacity and for any
set_init argument within capacity, bytes_init never exceeds bytes_total
and never decreases: set_init(n) leaves the handle unchanged when n is
at most the current bytes_init and sets bytes_init to n otherwise. -/
theorem fixed_buf_init_le_total_and_monotone (fb : FixedBuf) (n : Nat)
    (h1 : fb.buf.len ≤ fb.buf.capacity) (h2 : n ≤ fb.buf.capacity) :
    fb.bytes_init ≤ fb.bytes_total ∧
    (fb.set_init n).bytes_init = max fb.bytes_init n ∧
    fb.bytes_init ≤ (fb.set_init n).bytes_init ∧
    (fb.set_init n).bytes_init ≤ (fb.set_init n).bytes_total ∧
    (n ≤ fb.bytes_init → fb.set_init n = fb) ∧
    (fb.bytes_init < n → (fb.set_init n).bytes_init = n) := by
  have hcap : fb.buf.capacity = fb.buf.mem.length := rfl
  have hbi : fb.bytes_init = fb.buf.len := rfl
  by_cases hlt : fb.buf.len < n
  · have he : fb.set_init n = ⟨⟨fb.buf.mem, n⟩, fb.index⟩ := by
      simp [FixedBuf.set_init, hlt, VecU8.set_len]
    refine ⟨h1, ?_, ?_, ?_, ?_, ?_⟩
    · rw [he]; show n = max fb.buf.len n; omega
    · rw [he]; show fb.buf.len ≤ n; omega
    · rw [he]; show n ≤ fb.buf.mem.length; omega
    · intro hle; exact absurd hle (by omega)
    · intro _; rw [he]; exact rfl
  · have he : fb.set_init n = fb := by
      simp [FixedBuf.set_init, hlt]
    refine ⟨h1, ?_, ?_, ?_, ?_, ?_⟩
    · rw [he]; show fb.buf.len = max fb.buf.len n; omega
    · rw [he]
    · rw [he]; exact h1
    · intro _; exact he
    · intro hgt; exact absurd hgt (by omega)

/-- C7 witness: a capacity-3 buffer with 1 initialized byte:
set_init 2 advances bytes_init to 2 and set_init 1 is a no-op. -/
theorem fixed_buf_init_le_total_and_monotone_witness :
    FixedBuf.bytes_init ⟨⟨[0, 0, 0], 1⟩, 0⟩ ≤
      FixedBuf.bytes_total ⟨⟨[0, 0, 0], 1⟩, 0⟩ ∧
    (FixedBuf.set_init ⟨⟨[0, 0, 0], 1⟩, 0⟩ 2).bytes_init = 2 ∧
    FixedBuf.set_init ⟨⟨[0, 0, 0], 1⟩, 0⟩ 1 = ⟨⟨[0, 0, 0], 1⟩, 0⟩ := by
  have h2 := fixed_buf_init_le_total_and_monotone ⟨⟨[0, 0, 0], 1⟩, 0⟩ 2
    (by decide) (by decide)
  have h1 := fixed_buf_init_le_total_and_monotone ⟨⟨[0, 0, 0], 1⟩, 0⟩ 1
    (by decide) (by decide)
  exact ⟨h2.1, h2.2.2.2.2.2 (by decide), h1.2.2.2.2.1 (by decide)⟩

/-- C8: dereferencing a FixedBuf handle (Deref and DerefMut) yields a
byte slice whose length is exactly bytes_init, the initialized-length
prefix of the underlying buffer. -/
theorem fixed_buf_deref_init_length (fb : FixedBuf)
    (h : fb.buf.len ≤ fb.buf.capacity) :
    fb.deref.length = fb.bytes_init ∧ fb.derefMut.length = fb.bytes_init := by
  have h2 : fb.buf.len ≤ fb.buf.mem.length := h
  have hd : fb.deref.length = fb.bytes_init := by
    simp only [FixedBuf.deref, FixedBuf.bytes_init, List.length_take]
    omega
  exact ⟨hd, hd⟩

/-- C8 witness: a capacity-3 buffer with 2 initialized bytes
dereferences to a slice of length 2. -/
theorem fixed_buf_deref_init_length_witness :
    VecU8.len ⟨[7, 8, 9], 2⟩ ≤ VecU8.capacity ⟨[7, 8, 9], 2⟩ ∧
    (FixedBuf.deref ⟨⟨[7, 8, 9], 2⟩, 1⟩).length =
      FixedBuf.bytes_init ⟨⟨[7, 8, 9], 2⟩, 1⟩ ∧
    (FixedBuf.derefMut ⟨⟨[7, 8, 9], 2⟩, 1⟩).length =
      FixedBuf.bytes_init ⟨⟨[7, 8, 9], 2⟩, 1⟩ := by
  have h := fixed_buf_deref_init_length ⟨⟨[7, 8, 9], 2⟩, 1⟩ (by decide)
  exact ⟨by decide, h.1, h.2⟩

/-- C10: when a Read operation completes successfully with kernel
result v, the completion handler calls set_init(v) on the owned buffer
before returning it, so the buffer handed back alongside Ok(v) has
initialized length at least v. -/
theorem read_complete_sets_init :
    ∀ (fb : FixedBuf) (v : Nat),
      readComplete FixedBuf.set_init fb (Except.ok v) =
        (Except.ok v, fb.set_init v) ∧
      v ≤ (readComplete FixedBuf.set_init fb (Except.ok v)).2.bytes_init := by
  intro fb v
  refine ⟨rfl, ?_⟩
  simp only [readComplete, bufResultWith, FixedBuf.set_init, FixedBuf.bytes_init,
    VecU8.set_len]
  by_cases hlt : fb.buf.len < v
  · simp [hlt]
  · simp [hlt]
    omega
